import Mathlib

/-!
# Verification of the KengU update engine against its specification

Shallow embedding of the update core of the KengU repository:

* `src/rag/chunker.py`                      — `RecursiveDocumentChunker`
* `src/agents/scraper_agent/updater.py`     — freshness policy and timestamp advancement
* `src/rag_scraper/scraper.py`              — `RAGScraper.scrape_all` orchestration
* `src/rag_scraper/moodle.py`               — per-course download loop with duplicate skip
* `src/rag_scraper/exambase.py`             — exam filename derivation and per-code fan-out
* `src/rag_scraper/parallel.py`             — the global login lock

Machine integers do not occur (Python ints are unbounded); times are modelled
as `Int` seconds, durations likewise (`timedelta` compares exactly).
-/

namespace KengU

/-! ## Python string primitives

Python string operations used by the embedded code, implemented on `List Char`.
`pyIsSpace` is the ASCII whitespace class of `str.strip` / `str.split` / regex
`\s`; the source only ever feeds ASCII text through these paths. -/

def pyIsSpace (c : Char) : Bool :=
  c = ' ' || c = '\t' || c = '\n' || c = '\r' || c = '\x0b' || c = '\x0c'

/-- Regex `\w` (ASCII range, as exercised by the source's inputs). -/
def pyIsWord (c : Char) : Bool :=
  c.isAlpha || c.isDigit || c = '_'

def dropLeadingSpace : List Char → List Char
  | [] => []
  | c :: cs => if pyIsSpace c then dropLeadingSpace cs else c :: cs

/-- Python `str.strip()` on a char list. -/
def pyStripL (l : List Char) : List Char :=
  (dropLeadingSpace (dropLeadingSpace l.reverse).reverse)

/-- Python `str.strip()`. -/
def pyStrip (s : String) : String :=
  ⟨pyStripL s.data⟩

/-- Split a char list at every occurrence of one character (keeping empties),
the semantics of Python `str.split(sep)` for a one-character separator. -/
def splitCharAux (sep : Char) : List Char → List Char → List (List Char)
  | [], acc => [acc.reverse]
  | c :: cs, acc =>
    if c = sep then acc.reverse :: splitCharAux sep cs []
    else splitCharAux sep cs (c :: acc)

def splitChar (sep : Char) (l : List Char) : List (List Char) :=
  splitCharAux sep l []

/-- Python `str.splitlines()` for `\n`-separated text: empty string gives `[]`,
and a trailing newline does not produce a trailing empty line. -/
def pySplitlines (l : List Char) : List (List Char) :=
  if l = [] then []
  else
    let parts := splitChar '\n' l
    if l.getLast? = some '\n' then parts.dropLast else parts

/-- Python `str.split()` (no argument): split on whitespace runs, no empties. -/
def pySplitWsAux : List Char → List Char → List (List Char)
  | [], acc => if acc = [] then [] else [acc.reverse]
  | c :: cs, acc =>
    if pyIsSpace c then
      if acc = [] then pySplitWsAux cs [] else acc.reverse :: pySplitWsAux cs []
    else pySplitWsAux cs (c :: acc)

def pySplitWs (l : List Char) : List (List Char) :=
  pySplitWsAux l []

/-- Python `sep.join(parts)` on char lists. -/
def pyJoinL (sep : List Char) : List (List Char) → List Char
  | [] => []
  | [p] => p
  | p :: ps => p ++ sep ++ pyJoinL sep ps

/-- `" ".join(parts)` for strings. -/
def joinSpace (parts : List String) : String :=
  ⟨pyJoinL [' '] (parts.map String.data)⟩

/-- Python `s[-n:]` for `n > 0`: the last `n` characters (whole string when
shorter). -/
def pyTakeRight (s : String) (n : Nat) : String :=
  ⟨(s.data.reverse.take n).reverse⟩

/-- Python `s[a:b]` for `0 ≤ a ≤ b`. -/
def pySlice (s : String) (a b : Nat) : String :=
  ⟨(s.data.drop a).take (b - a)⟩

/-- Python `str.zfill(w)` for the digit strings the source feeds it. -/
def pyZfill (s : String) (w : Nat) : String :=
  ⟨List.replicate (w - s.length) '0' ++ s.data⟩

/-- Python `str.lower()` (ASCII). -/
def pyLower (s : String) : String :=
  ⟨s.data.map Char.toLower⟩

/-! ## `src/rag/chunker.py` — `RecursiveDocumentChunker`

The chunker works entirely on character counts; `token_chars_ratio` enters
only through `int(tokens * ratio)`.  The embedding carries the ratio as a
natural number `chars_per_token`; for the integral ratios the repository uses
(default `4.0`) the Python float product is exact and `int` truncation is the
identity, so `tokens * chars_per_token` is the same number. -/

structure ChunkerConfig where
  target_tokens : Nat
  max_tokens : Nat
  min_tokens : Nat
  overlap_tokens : Nat
  chars_per_token : Nat
deriving Repr, DecidableEq

/-- `RecursiveDocumentChunker.__init__` (chunker.py lines 14-31): the two
validation guards, raising `ValueError` (modelled as `.error`) when they
fail.  Parameters are `Int` because Python ints are signed. -/
def chunkerInit (target_tokens max_tokens min_tokens overlap_tokens : Int)
    (chars_per_token : Nat) : Except String ChunkerConfig :=
  if ¬ (0 < min_tokens ∧ min_tokens ≤ target_tokens ∧ target_tokens ≤ max_tokens) then
    .error "Require 0 < min_tokens <= target_tokens <= max_tokens"
  else if overlap_tokens < 0 ∨ overlap_tokens ≥ target_tokens then
    .error "overlap_tokens must be in [0, target_tokens)"
  else
    .ok ⟨target_tokens.toNat, max_tokens.toNat, min_tokens.toNat,
         overlap_tokens.toNat, chars_per_token⟩

/-- `_tokens_to_chars` (line 39). -/
def tokensToChars (cfg : ChunkerConfig) (tokens : Nat) : Nat :=
  tokens * cfg.chars_per_token

def maxChars (cfg : ChunkerConfig) : Nat := tokensToChars cfg cfg.max_tokens

def minChars (cfg : ChunkerConfig) : Nat := tokensToChars cfg cfg.min_tokens

def targetChars (cfg : ChunkerConfig) : Nat := tokensToChars cfg cfg.target_tokens

def overlapChars (cfg : ChunkerConfig) : Nat := tokensToChars cfg cfg.overlap_tokens

/-- Match a literal char sequence, returning the rest. -/
def matchLit : List Char → List Char → Option (List Char)
  | [], l => some l
  | _ :: _, [] => none
  | p :: ps, c :: cs => if c = p then matchLit ps cs else none

/-- Match a literal char sequence case-insensitively (the `re.IGNORECASE`
flag on the marker patterns). -/
def matchCI : List Char → List Char → Option (List Char)
  | [], l => some l
  | _ :: _, [] => none
  | p :: ps, c :: cs => if c.toLower = p.toLower then matchCI ps cs else none

/-- The `\s+\d+\s*===$` tail of the slide/page marker patterns. -/
def markerTail (l : List Char) : Bool :=
  match l with
  | [] => false
  | c :: cs =>
    if pyIsSpace c then
      match dropLeadingSpace cs with
      | [] => false
      | d :: ds =>
        if d.isDigit then
          match matchLit "===".data (dropLeadingSpace (ds.dropWhile (·.isDigit))) with
          | some rest => rest = []
          | none => false
        else false
    else false

/-- `^===\s*<word>\s+\d+\s*===$` (case-insensitive) applied to the stripped
line, as in `self._re_slide.match(ln.strip())` / `_re_page` (lines 34-35). -/
def isMarker (word : List Char) (ln : List Char) : Bool :=
  match matchLit "===".data (pyStripL ln) with
  | some l1 =>
    match matchCI word (dropLeadingSpace l1) with
    | some l2 => markerTail l2
    | none => false
  | none => false

/-- `^(#{1,6})\s+(.+)` from `_re_heading` (line 36), applied to the stripped
line; returns the heading level when the pattern matches. -/
def headingLevel (ln : List Char) : Option Nat :=
  let l := pyStripL ln
  let k := (l.takeWhile (· = '#')).length
  if 1 ≤ k ∧ k ≤ 6 then
    match l.drop k with
    | c :: _ :: _ => if pyIsSpace c then some k else none
    | _ => none
  else none

def joinNlStrip (ls : List (List Char)) : String :=
  pyStrip ⟨pyJoinL ['\n'] ls⟩

/-- Loop body of `_split_by_markers` (lines 50-71). -/
def splitByMarkersGo : List (List Char) → List (List Char) → String →
    List (String × String)
  | [], current, kind =>
    if current ≠ [] then [(kind, joinNlStrip current)] else []
  | ln :: rest, current, kind =>
    if isMarker "slide".data ln then
      (if current ≠ [] then [(kind, joinNlStrip current)] else []) ++
        splitByMarkersGo rest [ln] "SLIDE"
    else if isMarker "page".data ln then
      (if current ≠ [] then [(kind, joinNlStrip current)] else []) ++
        splitByMarkersGo rest [ln] "PAGE"
    else
      splitByMarkersGo rest (current ++ [ln]) kind

/-- `_split_by_markers` (lines 42-76). -/
def splitByMarkers (text : String) : List (String × String) :=
  let lines := pySplitlines text.data
  if lines = [] then []
  else
    let blocks := splitByMarkersGo lines [] "DOC"
    if blocks.map Prod.fst = ["DOC"] then blocks
    else blocks.filter (fun kb => pyStrip kb.2 ≠ "")

/-- Loop body of `_split_headings` (lines 85-100). -/
def splitHeadingsGo : List (List Char) → List (List Char) → Nat →
    List (Nat × List (List Char))
  | [], current, lvl => if current ≠ [] then [(lvl, current)] else []
  | ln :: rest, current, lvl =>
    match headingLevel ln with
    | some k =>
      (if current ≠ [] then [(lvl, current)] else []) ++ splitHeadingsGo rest [ln] k
    | none => splitHeadingsGo rest (current ++ [ln]) lvl

/-- `_split_headings` (lines 78-109). -/
def splitHeadings (block_text : String) : List (Nat × String) :=
  let sections := splitHeadingsGo (pySplitlines block_text.data) [] 7
  let merged := sections.filterMap (fun la =>
    let txt := joinNlStrip la.2
    if txt ≠ "" then some (la.1, txt) else none)
  if merged = [] then [(7, block_text)] else merged

/-- One splitting pass of `re.split(r"\n\s*\n", ...)`: at each `\n`, the
greedy `\s*` (with backtracking so that a final `\n` remains) consumes up to
the last newline of the following whitespace run.  Every step consumes at
least one character, so fuel `l.length` reproduces the scan exactly. -/
def splitParaGo : Nat → List Char → List Char → List (List Char)
  | _, [], acc => [acc]
  | 0, l, acc => [acc ++ l]
  | fuel + 1, c :: rest, acc =>
    if c = '\n' then
      let run := rest.takeWhile pyIsSpace
      match run.reverse.findIdx? (· = '\n') with
      | some i => acc :: splitParaGo fuel (rest.drop (run.length - i)) []
      | none => splitParaGo fuel rest (acc ++ ['\n'])
    else
      splitParaGo fuel rest (acc ++ [c])

/-- `_paragraphs` (lines 111-118). -/
def paragraphs (text : String) : List String :=
  let stripped := pyStripL text.data
  let parts := ((splitParaGo stripped.length stripped []).map
    (fun p => pyStrip ⟨p⟩)).filter (· ≠ "")
  if parts ≠ [] then parts
  else
    let parts2 := ((pySplitlines text.data).map (fun t => pyStrip ⟨t⟩)).filter (· ≠ "")
    if parts2 ≠ [] then parts2 else [pyStrip text]

/-- Split at `(?<=[\.!\?])\s+`: after whitespace normalisation the only
whitespace left is single blanks, so the pattern fires exactly at a blank
whose predecessor is `.`, `!` or `?`. -/
def splitSentGo (l : List Char) (acc : List Char) : List (List Char) :=
  match l with
  | [] => [acc]
  | c :: rest =>
    if pyIsSpace c ∧ (acc.getLast? = some '.' ∨ acc.getLast? = some '!' ∨
        acc.getLast? = some '?') then
      acc :: splitSentGo rest []
    else
      splitSentGo rest (acc ++ [c])

/-- `_sentences` (lines 120-126): normalise whitespace, split at sentence
boundaries, strip and drop empties. -/
def sentencesOf (text : String) : List String :=
  let t := joinSpace ((pySplitWs text.data).map (fun l => (⟨l⟩ : String)))
  if t = "" then []
  else ((splitSentGo t.data []).map (fun s => pyStrip ⟨s⟩)).filter (· ≠ "")

/-- The hard-split `while` loop of `_pack` (lines 165-171), with explicit
fuel.  For `overlap < max_len` (every configuration the constructor accepts
with a positive ratio) the fuel `frag.length + 1` is enough to reproduce the
Python loop exactly; for `max_len ≤ overlap` the Python loop does not
terminate. -/
def hardSplitGo (max_len overlap frag_len : Nat) (frag : String) :
    Nat → Nat → List String
  | 0, _ => []
  | fuel + 1, start =>
    if start < frag_len then
      let e := min (start + max_len) frag_len
      let piece := pyStrip (pySlice frag start e)
      let emitted := if piece ≠ "" then [piece] else []
      let start2 := if e < frag_len then e - overlap else e
      emitted ++ hardSplitGo max_len overlap frag_len frag fuel start2
    else []

def hardSplit (max_len overlap : Nat) (frag : String) : List String :=
  hardSplitGo max_len overlap frag.length frag (frag.length + 1) 0

structure PackState where
  chunks : List String
  buf : List String
  buf_len : Nat
deriving Repr

/-- One iteration of the `for frag in fragments` loop of `_pack`
(lines 141-183), translated branch by branch.  Note that the source really
does set `buf_len = len(frag)` at line 176 even though `buf` then holds
`[tail, frag]`. -/
def packStep (target max_len min_len overlap : Nat) (st : PackState)
    (frag : String) : PackState :=
  let frag_len := frag.length
  if st.buf_len = 0 then
    { st with buf := st.buf ++ [frag], buf_len := frag_len }
  else if st.buf_len + 1 + frag_len ≤ max_len then
    let buf := st.buf ++ [frag]
    let buf_len := st.buf_len + 1 + frag_len
    if buf_len ≥ target then
      let chunk := pyStrip (joinSpace buf)
      let tail := if overlap > 0 then pyTakeRight chunk overlap else ""
      { chunks := st.chunks ++ [chunk],
        buf := if tail ≠ "" then [tail] else [],
        buf_len := tail.length }
    else
      { st with buf := buf, buf_len := buf_len }
  else
    if st.buf_len ≥ min_len then
      let chunk := pyStrip (joinSpace st.buf)
      let chunks := st.chunks ++ [chunk]
      let tail := if overlap > 0 then pyTakeRight chunk overlap else ""
      let buf := if tail ≠ "" then [tail] else []
      if frag_len ≥ max_len then
        { chunks := chunks ++ hardSplit max_len overlap frag, buf := [], buf_len := 0 }
      else
        { chunks := chunks, buf := buf ++ [frag], buf_len := frag.length }
    else
      let chunks :=
        if st.buf ≠ [] then st.chunks ++ [pyStrip (joinSpace st.buf)] else st.chunks
      let tail :=
        if overlap > 0 ∧ chunks ≠ [] then pyTakeRight (chunks.getLastD "") overlap
        else ""
      let buf := if tail ≠ "" then [tail, frag] else [frag]
      { chunks := chunks, buf := buf, buf_len := (joinSpace buf).length }

/-- The flush after the loop plus the final comprehension of `_pack`
(lines 185-192). -/
def packFinish (max_len min_len : Nat) (st : PackState) : List String :=
  let chunks :=
    if st.buf_len > 0 then
      if st.chunks ≠ [] ∧ st.buf_len < min_len ∧
          (st.chunks.getLastD "").length + 1 + st.buf_len ≤ max_len then
        st.chunks.dropLast ++
          [pyStrip ((st.chunks.getLastD "") ++ " " ++ joinSpace st.buf)]
      else
        st.chunks ++ [pyStrip (joinSpace st.buf)]
    else st.chunks
  chunks.filter (fun c => pyStrip c ≠ "")

/-- `_pack` (lines 128-192). -/
def pack (cfg : ChunkerConfig) (fragments : List String) : List String :=
  packFinish (maxChars cfg) (minChars cfg)
    (fragments.foldl
      (packStep (targetChars cfg) (maxChars cfg) (minChars cfg) (overlapChars cfg))
      ⟨[], [], 0⟩)

/-- The per-block fragment computation inside `chunk` (lines 204-218):
headings, then paragraphs, then sentences, with the two fallbacks. -/
def blockSentences (block : String) : List String :=
  let sections := splitHeadings block
  let section_texts := if sections ≠ [] then sections.map Prod.snd else [block]
  let sentences := section_texts.flatMap (fun sec =>
    (paragraphs sec).flatMap (fun para => sentencesOf para))
  let sentences := if sentences = [] then sentencesOf block else sentences
  if sentences = [] then [block] else sentences

/-- The top-level block list of `chunk` (lines 195-201). -/
def topBlocksOf (text : String) : List (String × String) :=
  let content := pyStrip text
  if content = "" then []
  else
    let top_blocks := splitByMarkers content
    if top_blocks = [] then [("DOC", content)] else top_blocks

/-- All fragments `chunk` hands to `_pack`, across blocks. -/
def chunkFragments (text : String) : List String :=
  (topBlocksOf text).flatMap (fun kb => blockSentences kb.2)

/-- `RecursiveDocumentChunker.chunk` (lines 194-220). -/
def chunkFn (cfg : ChunkerConfig) (text : String) : List String :=
  (topBlocksOf text).flatMap (fun kb => pack cfg (blockSentences kb.2))

/-! ## `src/agents/scraper_agent/updater.py` — freshness policy

A course row of the `courses` table: internal id, full title, and the two
nullable freshness timestamps (`update_time_moodle`, `update_time_exambase`).
Times are `Int` seconds; `datetime` subtraction and `timedelta` comparison
are exact, so `now - ts > threshold` carries over verbatim. -/

structure Course where
  id : Int
  name : String
  moodle_time : Option Int
  exambase_time : Option Int
deriving Repr, DecidableEq

/-- `MOODLE_UPDATE_THRESHOLD = timedelta(hours=24)` (updater.py line 22),
in seconds. -/
def MOODLE_UPDATE_THRESHOLD : Int := 24 * 3600

/-- `EXAMBASE_UPDATE_THRESHOLD = timedelta(days=30)` (updater.py line 23),
in seconds. -/
def EXAMBASE_UPDATE_THRESHOLD : Int := 30 * 24 * 3600

/-- `KnowledgeBaseUpdater._get_courses_need_update` (updater.py lines
122-215).  The single `current_time = datetime.now()` read at line 136 is the
`current_time` argument; both due-lists are produced from the same reading.
The loop appends `course["name"]` to `moodle_courses` when the Moodle
timestamp is `None` or `current_time - moodle_time > MOODLE_UPDATE_THRESHOLD`
(strict), and to `exambase_courses` analogously. -/
def getCoursesNeedUpdate (current_time : Int) :
    List Course → List String × List String
  | [] => ([], [])
  | course :: rest =>
    let needs_moodle_update :=
      match course.moodle_time with
      | none => true
      | some t => decide (current_time - t > MOODLE_UPDATE_THRESHOLD)
    let needs_exambase_update :=
      match course.exambase_time with
      | none => true
      | some t => decide (current_time - t > EXAMBASE_UPDATE_THRESHOLD)
    (if needs_moodle_update then
       course.name :: (getCoursesNeedUpdate current_time rest).1
     else (getCoursesNeedUpdate current_time rest).1,
     if needs_exambase_update then
       course.name :: (getCoursesNeedUpdate current_time rest).2
     else (getCoursesNeedUpdate current_time rest).2)

/-- Modelled from the spec sentence of §4.1: a (course, Moodle) pair is due
iff its timestamp is null or `now - ts > T_lms`; ties are not due. -/
def moodleDueSpec (now : Int) (c : Course) : Bool :=
  match c.moodle_time with
  | none => true
  | some t => decide (now - t > MOODLE_UPDATE_THRESHOLD)

/-- Modelled from the spec sentence of §4.1 for the exam repository. -/
def exambaseDueSpec (now : Int) (c : Course) : Bool :=
  match c.exambase_time with
  | none => true
  | some t => decide (now - t > EXAMBASE_UPDATE_THRESHOLD)

/-! ## `src/rag_scraper/scraper.py` — `RAGScraper.scrape_all`

`_scrape_moodle` / `_scrape_exambase` run in two threads; each catches every
exception of its own scraping and returns a stats dict carrying its own
`success` flag.  The external outcomes (network, login, course enumeration,
downloads) are the `MoodleEnv` / `ExambaseEnv` parameters; the
`parallel_workers = 1` path is modelled, which is the path
`update_knowledge_base` invokes (updater.py line 357). -/

/-- Outcome of the external world for one `_scrape_moodle` call: either some
exception escapes the scraping body (caught at scraper.py line 224), or login
and enumeration succeed yielding a course list and the
`(count, paths)` pair returned by `download_all_courses`. -/
inductive MoodleEnv where
  | err
  | ok (courses : List String) (downloaded : Nat × List String)
deriving Repr, DecidableEq

/-- Outcome of the external world for one `_scrape_exambase` call. -/
inductive ExambaseEnv where
  | loginFailed
  | err
  | ok (total_courses courses_with_exams total_downloads : Nat)
deriving Repr, DecidableEq

/-- The stats dict built by `_scrape_moodle` (scraper.py lines 146-242).
`files_downloaded` holds the `(count, paths)` tuple exactly as the source
stores it (line 202 binds the tuple returned by `download_all_courses` and
line 209 places it under the key unrenamed); no `downloaded_file_paths` key
exists anywhere in these dicts. -/
structure MoodleStats where
  courses : Nat
  files_downloaded : Nat × List String
  success : Bool
  skipped : Bool
deriving Repr, DecidableEq

/-- The stats dict built by `_scrape_exambase` (scraper.py lines 361-456). -/
structure ExambaseStats where
  courses : Nat
  courses_with_exams : Nat
  exams_downloaded : Nat
  success : Bool
  skipped : Bool
deriving Repr, DecidableEq

/-- `RAGScraper._scrape_moodle` (scraper.py lines 146-242), success flag and
counters.  An empty or absent course filter short-circuits with
`success = True, skipped = True`; an exception yields `success = False`;
an empty course enumeration yields `success = False`; otherwise
`success = True` even when individual file downloads failed. -/
def scrapeMoodle (course_filter : Option (List String)) (env : MoodleEnv) :
    MoodleStats :=
  match course_filter with
  | none => ⟨0, (0, []), true, true⟩
  | some fil =>
    if fil.length = 0 then ⟨0, (0, []), true, true⟩
    else
      match env with
      | .err => ⟨0, (0, []), false, false⟩
      | .ok courses downloaded =>
        if courses = [] then ⟨0, (0, []), false, false⟩
        else ⟨courses.length, downloaded, true, false⟩

/-- `RAGScraper._scrape_exambase` (scraper.py lines 361-456). -/
def scrapeExambase (course_filter : Option (List String)) (env : ExambaseEnv) :
    ExambaseStats :=
  match course_filter with
  | none => ⟨0, 0, 0, true, true⟩
  | some fil =>
    if fil.length = 0 then ⟨0, 0, 0, true, true⟩
    else
      match env with
      | .loginFailed => ⟨0, 0, 0, false, false⟩
      | .err => ⟨0, 0, 0, false, false⟩
      | .ok tc cwe td => ⟨tc, cwe, td, true, false⟩

/-- The run-level stats dict of `RAGScraper.scrape_all`. -/
structure RunStats where
  moodle : MoodleStats
  exambase : ExambaseStats
  success : Bool
deriving Repr, DecidableEq

/-- `RAGScraper.scrape_all` (scraper.py lines 63-144): both workers are
joined, their dicts stored, and `self.stats["success"] = True` is set
unconditionally (line 126).  The flag becomes `False` only when the
orchestration body itself raises (`KeyboardInterrupt` or an exception in the
thread bookkeeping, lines 133-144), which `interrupted` models; worker
exceptions are caught inside `_scrape_moodle` / `_scrape_exambase` and never
reach this handler. -/
def scrapeAll (moodle_courses exambase_courses : Option (List String))
    (menv : MoodleEnv) (eenv : ExambaseEnv) (interrupted : Bool) : RunStats :=
  let moodle_stats := scrapeMoodle moodle_courses menv
  let exambase_stats := scrapeExambase exambase_courses eenv
  if interrupted then
    { moodle := ⟨0, (0, []), false, false⟩, exambase := ⟨0, 0, 0, false, false⟩,
      success := false }
  else
    { moodle := moodle_stats, exambase := exambase_stats, success := true }

/-! ## `src/agents/scraper_agent/updater.py` — timestamp advancement -/

/-- The dict comprehension `{course["name"]: course["id"] for course in
courses}` (updater.py line 234): on duplicate names the later entry wins. -/
def nameToId (courses : List Course) (name : String) : Option Int :=
  (courses.reverse.find? (fun c => c.name = name)).map Course.id

/-- `CourseDAO.update_moodle_time` (dao/course.py line 153): single-row SQL
update keyed by id. -/
def setMoodleTime (db : List Course) (cid : Int) (t : Int) : List Course :=
  db.map (fun c => if c.id = cid then { c with moodle_time := some t } else c)

/-- `CourseDAO.update_exambase_time` (dao/course.py line 173). -/
def setExambaseTime (db : List Course) (cid : Int) (t : Int) : List Course :=
  db.map (fun c => if c.id = cid then { c with exambase_time := some t } else c)

/-- `KnowledgeBaseUpdater._update_timestamps` (updater.py lines 217-260):
reads `current_time = datetime.now()` afresh (line 231), then for every name
on each due-list that is in the name→id map, writes that fresh time into the
corresponding row for that source. -/
def updateTimestamps (courses : List Course) (moodle_courses exambase_courses :
    List String) (current_time : Int) (db : List Course) : List Course :=
  let db1 := moodle_courses.foldl (fun db name =>
    match nameToId courses name with
    | some cid => setMoodleTime db cid current_time
    | none => db) db
  exambase_courses.foldl (fun db name =>
    match nameToId courses name with
    | some cid => setExambaseTime db cid current_time
    | none => db) db1

/-- Result of one `update_knowledge_base` run over the modelled state:
the returned stats, the course table afterwards, and the list of files the
run handed to the embedding ingestion pipeline. -/
structure UpdateResult where
  stats : RunStats
  db : List Course
  ingested : List String
deriving Repr, DecidableEq

/-- A placeholder `RunStats` for the two early-return paths of
`update_knowledge_base` (no courses; all courses up to date), which build
fresh dicts with `success` as shown at updater.py lines 317-322 and 332-345. -/
def noScrapeStats (success : Bool) : RunStats :=
  { moodle := ⟨0, (0, []), success, false⟩,
    exambase := ⟨0, 0, 0, success, false⟩,
    success := success }

/-- `update_knowledge_base` (updater.py lines 263-404), for a user whose
course set `db` is already in the database.  `now1` is the clock reading of
`_get_courses_need_update` (line 136) and `now2` the later, distinct reading
of `_update_timestamps` (line 231).  Step 4 gates on the run-level
`stats.get("success")` only (line 363); when it is true, `_update_timestamps`
advances every due-list course of *both* sources.  No call to the ingestion
pipeline (`generate_embeddings_from_download_stats` or any other
`RagService.ingest_file` path) occurs anywhere in the function, so the run
ingests nothing. -/
def updateKnowledgeBase (now1 now2 : Int) (db : List Course)
    (menv : MoodleEnv) (eenv : ExambaseEnv) (interrupted : Bool) : UpdateResult :=
  if db = [] then
    { stats := noScrapeStats false, db := db, ingested := [] }
  else
    let (moodle_courses, exambase_courses) := getCoursesNeedUpdate now1 db
    if moodle_courses = [] ∧ exambase_courses = [] then
      { stats := noScrapeStats true, db := db, ingested := [] }
    else
      let stats := scrapeAll
        (if moodle_courses = [] then none else some moodle_courses)
        (if exambase_courses = [] then none else some exambase_courses)
        menv eenv interrupted
      let db2 :=
        if stats.success then
          updateTimestamps db moodle_courses exambase_courses now2 db
        else db
      { stats := stats, db := db2, ingested := [] }

/-- The per-source file-path collection of
`generate_embeddings_from_download_stats` (embeddings_generator.py lines
183-184 and 203-204): `stats.get('moodle', {}).get('downloaded_file_paths',
[])` and the same for `exambase`.  The dicts built by `scrape_all` (modelled
by `MoodleStats` / `ExambaseStats`) carry no `downloaded_file_paths` key, so
both lookups hit the `[]` default. -/
def embeddingsInputFiles (_stats : RunStats) : List String :=
  [] ++ []

/-! ## `src/rag_scraper/exambase.py` — exam filename and per-code fan-out -/

/-- Python `str.startswith` via literal matching. -/
def pyStartsWith (s pre : String) : Bool :=
  (matchLit pre.data s.data).isSome

/-- Python `str.endswith`. -/
def pyEndsWith (s suf : String) : Bool :=
  (matchLit suf.data.reverse s.data.reverse).isSome

/-- First occurrences of a list, in order (the semantics of Python
`dict.fromkeys` key order and of `defaultdict` insertion order). -/
def firstOccurrences {α : Type} [DecidableEq α] : List α → List α
  | [] => []
  | x :: xs => x :: (firstOccurrences xs).filter (· ≠ x)

/-- Replace each maximal whitespace run by a single `_`
(`re.sub(r"\s+", "_", ...)`); `inRun` records whether the previous character
belonged to a run already replaced. -/
def wsRunsGo : List Char → Bool → List Char
  | [], _ => []
  | c :: cs, inRun =>
    if pyIsSpace c then
      (if inRun then [] else ['_']) ++ wsRunsGo cs true
    else c :: wsRunsGo cs false

/-- The title slug of `download_exam_papers` (exambase.py lines 492-493):
`re.sub(r"[^\w\s-]", "", title)` keeps word characters, whitespace and
hyphens; then `re.sub(r"\s+", "_", ...)`. -/
def slugTitle (title : String) : String :=
  ⟨wsRunsGo (title.data.filter (fun c => pyIsWord c || pyIsSpace c || c = '-')) false⟩

/-- The `remark` string of exambase.py lines 464-488: when the regexes found
subclass letters, `"_subclass_" + "_".join(unique_subclasses)` where
`dict.fromkeys` dedups preserving first occurrence. -/
def subclassRemark (subclasses : List Char) : String :=
  if subclasses = [] then ""
  else "_subclass_" ++ ⟨pyJoinL ['_'] ((firstOccurrences subclasses).map (fun c => [c]))⟩

/-- The converted exam date of exambase.py lines 450-462: the regex captures
`d-m-yyyy` from the row text and the code rewrites it as
`f"{y}-{m.zfill(2)}-{d.zfill(2)}"`.  The captured digit groups are the
`(d, m, y)` argument; `none` models a row without a date. -/
def examDateStr (exam_date : Option (String × String × String)) : String :=
  match exam_date with
  | none => ""
  | some (d, m, y) => y ++ "-" ++ pyZfill m 2 ++ "-" ++ pyZfill d 2

/-- The filename construction of `download_exam_papers`
(exambase.py lines 444-507) as a function of the course code, the row title,
the extracted exam date and the extracted subclass letters:
slug the title, prefix the course code unless the slug already starts with
it, append date and remark, and append `.pdf` unless the lower-cased name
already ends with it. -/
def examFilename (course_code title : String)
    (exam_date : Option (String × String × String)) (subclasses : List Char) :
    String :=
  let remark := subclassRemark subclasses
  let exam_date_s := examDateStr exam_date
  let filename := slugTitle title
  let filename :=
    if pyStartsWith filename course_code then filename
    else course_code ++ "_" ++ filename
  let filename :=
    if exam_date_s ≠ "" then filename ++ "_" ++ exam_date_s ++ remark
    else if remark ≠ "" then filename ++ remark
    else filename
  if pyEndsWith (pyLower filename) ".pdf" then filename else filename ++ ".pdf"

/-- Modelled from the spec sentence of §4.4: the canonical filename
`<course_code>_<title_slug>[_<yyyy-mm-dd>][_subclass_<A>_<B>...].pdf`, where
`title_slug` is the title with non-word characters removed and whitespace
replaced by `_`. -/
def examFilenameSpec (course_code title : String)
    (exam_date : Option (String × String × String)) (subclasses : List Char) :
    String :=
  let slug : String :=
    ⟨wsRunsGo (title.data.filter (fun c => pyIsWord c || pyIsSpace c)) false⟩
  let date_part :=
    match exam_date with
    | none => ""
    | some dmy => "_" ++ examDateStr (some dmy)
  course_code ++ "_" ++ slug ++ date_part ++ subclassRemark subclasses ++ ".pdf"

/-- The canonical filename as the code actually forms it, written in the
template shape of the claim: base name (code-prefixed only when the slug,
which keeps hyphens, does not already start with the code), then the optional
date part, then the optional subclass part, with `.pdf` appended when the
name does not already end in it case-insensitively. -/
def examFilenameAmended (course_code title : String)
    (exam_date : Option (String × String × String)) (subclasses : List Char) :
    String :=
  let slug := slugTitle title
  let base :=
    if pyStartsWith slug course_code then slug else course_code ++ "_" ++ slug
  let date_part :=
    match exam_date with
    | none => ""
    | some dmy => "_" ++ examDateStr (some dmy)
  let name := base ++ date_part ++ subclassRemark subclasses
  if pyEndsWith (pyLower name) ".pdf" then name else name ++ ".pdf"

/-- One exam-repository result row after the regex extraction of
`download_exam_papers`: display title, the captured date digits, and the
captured subclass letters. -/
structure ExamRow where
  title : String
  exam_date : Option (String × String × String)
  subclasses : List Char
deriving Repr, DecidableEq

def examRowFilename (course_code : String) (row : ExamRow) : String :=
  examFilename course_code row.title row.exam_date row.subclasses

/-- `download_exam_papers` (exambase.py lines 407-547), the dedup-and-write
loop: `existing_files` is the folder listing captured once at entry
(lowercased, lines 431-434); a row whose derived filename is already present
case-insensitively is skipped (line 510), every other row's file is fetched
and written.  Network transfers are modelled as succeeding; a per-file
failure only drops that one file and never touches the dedup logic.
Returns the filenames written, in order. -/
def downloadExamPapers (course_code : String) (existing_files : List String)
    (exam_links : List ExamRow) : List String :=
  exam_links.filterMap (fun row =>
    let filename := examRowFilename course_code row
    if pyLower filename ∈ existing_files.map pyLower then none
    else some filename)

/-- The `defaultdict(list)` grouping of exambase.py lines 602-606:
codes in first-occurrence order, each holding its folders in list order. -/
def groupByCode (course_list : List (String × String)) :
    List (String × List String) :=
  (firstOccurrences (course_list.map Prod.fst)).map (fun code =>
    (code, (course_list.filter (fun p => p.1 = code)).map Prod.snd))

/-- The per-code loop of `download_all_courses` (exambase.py lines 608-627):
one `search_course_exams` call per distinct code; when it returns rows, a
`download_exam_papers` call per folder mapped to that code.  `search` is the
remote search, `listing` the per-folder directory listing.  Returns the
codes searched (in order) and, per folder visited, the files written. -/
def downloadAllCoursesExam (search : String → List ExamRow)
    (course_list : List (String × String)) (listing : String → List String) :
    List String × List (String × List String) :=
  let grouped := groupByCode course_list
  (grouped.map Prod.fst,
   grouped.flatMap (fun cf =>
     if search cf.1 = [] then []
     else cf.2.map (fun folder =>
       (folder, downloadExamPapers cf.1 (listing folder) (search cf.1)))))

/-! ## `src/rag_scraper/moodle.py` — per-course download loop -/

/-- Observable actions of the download loop: an HTTP body transfer, a file
write, and a skip decided before any transfer. -/
inductive DlEvent where
  | fetch (filename : String)
  | write (filename : String)
  | skip (filename : String)
deriving Repr, DecidableEq

/-- The `for idx, item in enumerate(download_links)` loop of
`download_all_courses` (moodle.py lines 617-650): candidates are checked
case-insensitively against the on-disk listing and against
`downloaded_in_this_run` *before* `_download_file_safe` is called; only a
successful download (`fetchOk idx`) writes the file and records the
lowercased name. -/
def downloadLoopGo (fetchOk : Nat → Bool) :
    List String → List String → List String → Nat → List DlEvent
  | [], _, _, _ => []
  | filename :: rest, existing_files, downloaded_in_this_run, idx =>
    if pyLower filename ∈ existing_files ∨ pyLower filename ∈ downloaded_in_this_run then
      .skip filename :: downloadLoopGo fetchOk rest existing_files downloaded_in_this_run (idx + 1)
    else
      .fetch filename ::
        (if fetchOk idx then
          .write filename ::
            downloadLoopGo fetchOk rest existing_files
              (downloaded_in_this_run ++ [pyLower filename]) (idx + 1)
        else
          downloadLoopGo fetchOk rest existing_files downloaded_in_this_run (idx + 1))

/-- The download phase for one course: `existing_files` is
`set(f.lower() for f in os.listdir(course_dir))` (moodle.py line 396) and
`downloaded_in_this_run` starts empty (line 397). -/
def downloadCourseEvents (fetchOk : Nat → Bool) (dirListing : List String)
    (download_links : List String) : List DlEvent :=
  downloadLoopGo fetchOk download_links (dirListing.map pyLower) [] 0

/-- Number of HTTP bodies transferred for a given lowercased filename. -/
def countFetches (events : List DlEvent) (lname : String) : Nat :=
  events.countP (fun e => match e with
    | .fetch f => pyLower f = lname
    | _ => false)

/-- Number of files written for a given lowercased filename. -/
def countWrites (events : List DlEvent) (lname : String) : Nat :=
  events.countP (fun e => match e with
    | .write f => pyLower f = lname
    | _ => false)

/-! ## `src/rag_scraper/parallel.py` — the global login lock

A minimal interleaving model: each thread runs a straight-line program of
atomic actions; `acquire`/`release` act on the single global
`_login_lock` (parallel.py line 14), `lstart`/`lend` delimit the interactive
login.  A schedule is a list of thread ids; a step blocks (the whole
schedule is rejected) when the action is not enabled. -/

inductive Act where
  | acquire
  | release
  | lstart
  | lend
deriving Repr, DecidableEq

structure SysState where
  lock : Option Nat
  pcs : List Nat
deriving Repr, DecidableEq

/-- One atomic step of thread `t`. -/
def stepFn (progs : List (List Act)) (s : SysState) (t : Nat) : Option SysState :=
  let pc := s.pcs.getD t 0
  match (progs.getD t []).get? pc with
  | none => none
  | some a =>
    match a with
    | .acquire =>
      if s.lock = none then some ⟨some t, s.pcs.set t (pc + 1)⟩ else none
    | .release =>
      if s.lock = some t then some ⟨none, s.pcs.set t (pc + 1)⟩ else none
    | .lstart => some ⟨s.lock, s.pcs.set t (pc + 1)⟩
    | .lend => some ⟨s.lock, s.pcs.set t (pc + 1)⟩

def runSched (progs : List (List Act)) : SysState → List Nat → Option SysState
  | s, [] => some s
  | s, t :: ts =>
    match stepFn progs s t with
    | some s2 => runSched progs s2 ts
    | none => none

def initState (progs : List (List Act)) : SysState :=
  ⟨none, List.replicate progs.length 0⟩

/-- Thread `t` is between its `lstart` and its `lend`: among the actions it
has executed there are more login starts than login ends. -/
def inLogin (progs : List (List Act)) (s : SysState) (t : Nat) : Bool :=
  let executed := (progs.getD t []).take (s.pcs.getD t 0)
  executed.count .lstart > executed.count .lend

def loginsInFlight (progs : List (List Act)) (s : SysState) : Nat :=
  (List.range progs.length).countP (fun t => inLogin progs s t)

/-- The worker body of `_create_authenticated_driver`
(parallel.py lines 49-69, and identically lines 357-377):
`with _login_lock: <login>`. -/
def guardedLoginProg : List Act := [.acquire, .lstart, .lend, .release]

/-- The per-source thread of `RAGScraper.scrape_all` on the
`parallel_workers = 1` path (scraper.py lines 95-119): `_scrape_moodle`
calls `connect_moodle` (line 181) and `_scrape_exambase` calls
`scraper.login()` (line 402) with no lock anywhere around them. -/
def unguardedLoginProg : List Act := [.lstart, .lend]

/-! ## Theorems -/

/-- C10: the constructor of `RecursiveDocumentChunker` produces a chunker
iff `0 < min_tokens ≤ target_tokens ≤ max_tokens` and
`0 ≤ overlap_tokens < target_tokens`; every violating parameter tuple raises
`ValueError` and yields no chunker object. -/
theorem chunker_init_validates_bounds (target_tokens max_tokens min_tokens
    overlap_tokens : Int) (chars_per_token : Nat) :
    (chunkerInit target_tokens max_tokens min_tokens overlap_tokens
        chars_per_token).isOk = true ↔
      (0 < min_tokens ∧ min_tokens ≤ target_tokens ∧
        target_tokens ≤ max_tokens ∧ 0 ≤ overlap_tokens ∧
        overlap_tokens < target_tokens) := by
  unfold chunkerInit
  by_cases h1 : (0 < min_tokens ∧ min_tokens ≤ target_tokens ∧
      target_tokens ≤ max_tokens)
  · rw [if_neg (not_not_intro h1)]
    by_cases h2 : (overlap_tokens < 0 ∨ overlap_tokens ≥ target_tokens)
    · rw [if_pos h2]
      simp only [Except.isOk, Except.toBool]
      constructor
      · intro h; cases h
      · intro h
        obtain ⟨a, b, c, d, e⟩ := h
        rcases h2 with h2 | h2 <;> omega
    · rw [if_neg h2]
      simp only [Except.isOk, Except.toBool, true_iff]
      push_neg at h2
      exact ⟨h1.1, h1.2.1, h1.2.2, by omega, by omega⟩
  · rw [if_pos h1]
    simp only [Except.isOk, Except.toBool]
    constructor
    · intro h; cases h
    · intro h; exact absurd ⟨h.1, h.2.1, h.2.2.1⟩ h1

/-- C4 counterexample: with a catastrophic Moodle failure (its per-source
stats carry `success = False`), `scrape_all` still returns
`success = True`, so the overall flag is not the conjunction the claim
states. -/
theorem overall_success_flag_cex :
    (scrapeMoodle (some ["COMP7103 Data mining [Section 1C, 2025]"]) .err).success = false ∧
    (scrapeAll (some ["COMP7103 Data mining [Section 1C, 2025]"])
        (some ["COMP7103 Data mining [Section 1C, 2025]"]) .err (.ok 1 1 2)
        false).success = true := by
  decide

/-- C4 (amended): the overall `success` flag of `scrape_all` is true iff the
orchestration body itself did not raise; the per-source stats (with their own
fatal-error flags) are stored unchanged, and neither per-file failures nor
per-source fatal errors flip the overall flag. -/
theorem overall_success_flag_amended (moodle_courses exambase_courses :
    Option (List String)) (menv : MoodleEnv) (eenv : ExambaseEnv)
    (interrupted : Bool) :
    ((scrapeAll moodle_courses exambase_courses menv eenv interrupted).success
        = !interrupted) ∧
    (interrupted = false →
      (scrapeAll moodle_courses exambase_courses menv eenv interrupted).moodle
          = scrapeMoodle moodle_courses menv ∧
      (scrapeAll moodle_courses exambase_courses menv eenv interrupted).exambase
          = scrapeExambase exambase_courses eenv) := by
  cases interrupted <;> simp [scrapeAll]

/-- Witness for `overall_success_flag_amended` at a concrete input with a
fatally failed Moodle source. -/
theorem overall_success_flag_amended_witness :
    ((scrapeAll (some ["c1"]) (some ["c1"]) .err (.ok 1 1 2) false).success
        = !false) ∧
    ((scrapeAll (some ["c1"]) (some ["c1"]) .err (.ok 1 1 2) false).moodle
        = scrapeMoodle (some ["c1"]) .err ∧
     (scrapeAll (some ["c1"]) (some ["c1"]) .err (.ok 1 1 2) false).exambase
        = scrapeExambase (some ["c1"]) (.ok 1 1 2)) :=
  ⟨(overall_success_flag_amended (some ["c1"]) (some ["c1"]) .err (.ok 1 1 2) false).1,
   (overall_success_flag_amended (some ["c1"]) (some ["c1"]) .err (.ok 1 1 2) false).2 rfl⟩

/-- C3: `update_knowledge_base` performs no ingestion.  First conjunct: the
file collection of `generate_embeddings_from_download_stats` applied to any
stats produced by `scrape_all` is empty, because the stats dicts carry no
`downloaded_file_paths` key and both lookups take the `[]` default.  Second
conjunct evaluates the failing input: a run in which the Moodle dispatcher
downloads one new file still hands nothing to the ingestion pipeline, while
the claim requires that file to be standardized, chunked, embedded and
upserted in the same run. -/
theorem update_run_ingests_nothing :
    (∀ stats : RunStats, embeddingsInputFiles stats = []) ∧
    ((updateKnowledgeBase 1000000 1000500
        [⟨1, "COMP7103 Data mining", none, none⟩]
        (.ok ["COMP7103 Data mining"]
          (1, ["/srv/knowledge_base/COMP7103 Data mining/lecture1.pdf"]))
        (.ok 1 1 0) false).stats.moodle.files_downloaded
        = (1, ["/srv/knowledge_base/COMP7103 Data mining/lecture1.pdf"]) ∧
     (updateKnowledgeBase 1000000 1000500
        [⟨1, "COMP7103 Data mining", none, none⟩]
        (.ok ["COMP7103 Data mining"]
          (1, ["/srv/knowledge_base/COMP7103 Data mining/lecture1.pdf"]))
        (.ok 1 1 0) false).ingested = []) :=
  ⟨fun _ => rfl, by decide⟩

/-- C2 counterexample: course 1 is due for Moodle, the Moodle source fails
catastrophically (`MoodleEnv.err`, so its per-source stats carry
`success = False`), yet after the run its Moodle timestamp has been advanced
— and advanced to the fresh `_update_timestamps` clock reading `1000500`,
not to the captured `now = 1000000` of the due-list computation.  The claim
says a catastrophically failed source's timestamps are left untouched. -/
theorem timestamp_advance_on_failure_cex :
    ((updateKnowledgeBase 1000000 1000500
        [⟨1, "COMP7103 Data mining", some 0, some 999000⟩]
        .err (.ok 0 0 0) false).stats.moodle.success = false) ∧
    ((updateKnowledgeBase 1000000 1000500
        [⟨1, "COMP7103 Data mining", some 0, some 999000⟩]
        .err (.ok 0 0 0) false).stats.success = true) ∧
    ((updateKnowledgeBase 1000000 1000500
        [⟨1, "COMP7103 Data mining", some 0, some 999000⟩]
        .err (.ok 0 0 0) false).db
        = [⟨1, "COMP7103 Data mining", some 1000500, some 999000⟩]) := by
  decide

/-- C5 counterexample: with the valid configuration
`(target, max, min, overlap, ratio) = (2, 3, 1, 0, 4)` (accepted by the
constructor), the 16-character single-sentence text is returned as one chunk
of length 16, exceeding `max_tokens × ratio = 12`: `_pack` seeds its buffer
with the whole unsplittable fragment and the final flush emits it whole. -/
theorem chunk_exceeds_max_chars_cex :
    chunkerInit 2 3 1 0 4 = .ok ⟨2, 3, 1, 0, 4⟩ ∧
    maxChars ⟨2, 3, 1, 0, 4⟩ = 12 ∧
    chunkFn ⟨2, 3, 1, 0, 4⟩ "aaaaaaaaaaaaaaaa" = ["aaaaaaaaaaaaaaaa"] ∧
    ("aaaaaaaaaaaaaaaa" : String).length = 16 :=
  ⟨rfl, rfl, by decide, rfl⟩

/-- C6 counterexample: on the `parallel_workers = 1` path that
`update_knowledge_base` uses, `scrape_all` runs the Moodle thread and the
Exambase thread concurrently and each performs its interactive login with no
lock; the schedule that lets both threads take their first step is valid and
reaches a state in which two workers are in the login step at the same
instant. -/
theorem concurrent_logins_cex :
    runSched [unguardedLoginProg, unguardedLoginProg]
        (initState [unguardedLoginProg, unguardedLoginProg]) [0, 1]
        = some ⟨none, [1, 1]⟩ ∧
    loginsInFlight [unguardedLoginProg, unguardedLoginProg] ⟨none, [1, 1]⟩ = 2 := by
  decide

/-- C7 (amended): the derived exam filename is a pure function of
(course code, title, exam date, subclasses) and equals the template
`<base>[_<yyyy-mm-dd>][_subclass_<A>_<B>...][.pdf]` in which the base is the
slug prefixed by `<course_code>_` only when the slug does not already start
with the course code, the slug keeps word characters *and hyphens* with
whitespace runs replaced by a single `_`, and `.pdf` is appended when the
name does not already end with it case-insensitively. -/
theorem exam_filename_amended_eq (course_code title : String)
    (exam_date : Option (String × String × String)) (subclasses : List Char) :
    examFilename course_code title exam_date subclasses
      = examFilenameAmended course_code title exam_date subclasses := by
  cases exam_date with
  | none =>
    simp only [examFilename, examFilenameAmended, examDateStr, ne_eq]
    by_cases hr : subclassRemark subclasses = ""
    · simp [hr, String.append_empty]
    · simp [hr, String.append_empty]
  | some dmy =>
    obtain ⟨d, m, y⟩ := dmy
    have hne : ¬ (y ++ ("-" ++ (pyZfill m 2 ++ ("-" ++ pyZfill d 2))) = "") := by
      intro h
      have hl := congrArg String.length h
      simp only [String.length_append] at hl
      have h1 : ("-" : String).length = 1 := rfl
      have h0 : ("" : String).length = 0 := rfl
      omega
    simp only [examFilename, examFilenameAmended, examDateStr, ne_eq,
      String.append_assoc]
    simp [hne, String.append_assoc]

/-- C1: the two due-lists returned by `_get_courses_need_update` are exactly
the names of the courses satisfying the spec's due rule for each source,
evaluated at the single clock reading `now` of line 136 (the embedding takes
that one reading as its sole time argument, so one wall-clock value partitions
both lists); and a timestamp whose age equals the threshold exactly is not
due for either source. -/
theorem freshness_due_lists (now : Int) (courses : List Course) :
    (getCoursesNeedUpdate now courses).1
      = (courses.filter (fun c => moodleDueSpec now c)).map Course.name ∧
    (getCoursesNeedUpdate now courses).2
      = (courses.filter (fun c => exambaseDueSpec now c)).map Course.name ∧
    moodleDueSpec now ⟨0, "tie", some (now - MOODLE_UPDATE_THRESHOLD), none⟩ = false ∧
    exambaseDueSpec now ⟨0, "tie", none, some (now - EXAMBASE_UPDATE_THRESHOLD)⟩ = false := by
  refine ⟨?_, ?_, ?_, ?_⟩
  · induction courses with
    | nil => rfl
    | cons c rest ih =>
      simp only [getCoursesNeedUpdate, List.filter_cons, moodleDueSpec]
      split <;> simp_all [moodleDueSpec]
  · induction courses with
    | nil => rfl
    | cons c rest ih =>
      simp only [getCoursesNeedUpdate, List.filter_cons, exambaseDueSpec]
      split <;> simp_all [exambaseDueSpec]
  · simp only [moodleDueSpec, decide_eq_false_iff_not]
    omega
  · simp only [exambaseDueSpec, decide_eq_false_iff_not]
    omega

theorem mem_firstOccurrences {α : Type} [DecidableEq α] (l : List α) (a : α) :
    a ∈ firstOccurrences l ↔ a ∈ l := by
  induction l with
  | nil => simp [firstOccurrences]
  | cons x xs ih =>
    simp only [firstOccurrences, List.mem_cons, List.mem_filter, ne_eq]
    by_cases hax : a = x
    · simp [hax]
    · simp [hax, ih]

theorem nodup_firstOccurrences {α : Type} [DecidableEq α] (l : List α) :
    (firstOccurrences l).Nodup := by
  induction l with
  | nil => simp [firstOccurrences]
  | cons x xs ih =>
    simp only [firstOccurrences]
    refine List.Nodup.cons ?_ (ih.filter _)
    intro hx
    have := (List.mem_filter.mp hx).2
    simp at this

/-- C9: the exam worker groups its course list by external code, performs
exactly one remote search per distinct code (the searched codes are exactly
the codes of the course list, without repetition), and when the search finds
papers it writes into *every* folder mapped to that code; each folder
receives every found paper whose derived filename is not already present in
that folder case-insensitively. -/
theorem exam_code_search_once_fanout (search : String → List ExamRow)
    (course_list : List (String × String)) (listing : String → List String) :
    ((downloadAllCoursesExam search course_list listing).1.Nodup) ∧
    (∀ code, code ∈ (downloadAllCoursesExam search course_list listing).1 ↔
      code ∈ course_list.map Prod.fst) ∧
    (∀ code folder, (code, folder) ∈ course_list → search code ≠ [] →
      (folder, downloadExamPapers code (listing folder) (search code))
        ∈ (downloadAllCoursesExam search course_list listing).2) ∧
    (∀ code folder row, row ∈ search code →
      pyLower (examRowFilename code row) ∉ (listing folder).map pyLower →
      examRowFilename code row
        ∈ downloadExamPapers code (listing folder) (search code)) := by
  refine ⟨?_, ?_, ?_, ?_⟩
  · simp only [downloadAllCoursesExam, groupByCode, List.map_map]
    rw [show (Prod.fst ∘ fun code : String =>
        (code, (course_list.filter (fun p => p.1 = code)).map Prod.snd)) = id from rfl,
      List.map_id]
    exact nodup_firstOccurrences _
  · intro code
    simp only [downloadAllCoursesExam, groupByCode, List.map_map]
    rw [show (Prod.fst ∘ fun code : String =>
        (code, (course_list.filter (fun p => p.1 = code)).map Prod.snd)) = id from rfl,
      List.map_id]
    exact mem_firstOccurrences _ code
  · intro code folder hcf hne
    simp only [downloadAllCoursesExam]
    refine List.mem_flatMap.mpr
      ⟨(code, (course_list.filter (fun p => p.1 = code)).map Prod.snd), ?_, ?_⟩
    · simp only [groupByCode]
      exact List.mem_map.mpr ⟨code,
        (mem_firstOccurrences _ _).mpr (List.mem_map.mpr ⟨(code, folder), hcf, rfl⟩), rfl⟩
    · rw [if_neg hne]
      exact List.mem_map.mpr ⟨folder,
        List.mem_map.mpr ⟨(code, folder), List.mem_filter.mpr ⟨hcf, by simp⟩, rfl⟩, rfl⟩
  · intro code folder row hrow hnot
    exact List.mem_filterMap.mpr ⟨row, hrow, by simp [hnot]⟩

/-- Witness for `exam_code_search_once_fanout`: two internal courses share
the code `XYZ100` (spec scenario S4); the fan-out delivers both found papers
to the second folder as well, and a found paper not yet on disk is written. -/
theorem exam_code_search_once_fanout_witness :
    (("f2", downloadExamPapers "XYZ100" ((fun _ => []) "f2")
        ((fun c => if c = "XYZ100" then
            [⟨"Paper one", none, []⟩, ⟨"Paper two", none, []⟩] else []) "XYZ100"))
      ∈ (downloadAllCoursesExam
          (fun c => if c = "XYZ100" then
            [⟨"Paper one", none, []⟩, ⟨"Paper two", none, []⟩] else [])
          [("XYZ100", "f1"), ("XYZ100", "f2")] (fun _ => [])).2) ∧
    (examRowFilename "XYZ100" ⟨"Paper one", none, []⟩
      ∈ downloadExamPapers "XYZ100" ((fun _ => ([] : List String)) "f2")
          ((fun c => if c = "XYZ100" then
            [⟨"Paper one", none, []⟩, ⟨"Paper two", none, []⟩] else []) "XYZ100")) :=
  ⟨(exam_code_search_once_fanout
      (fun c => if c = "XYZ100" then
        [⟨"Paper one", none, []⟩, ⟨"Paper two", none, []⟩] else [])
      [("XYZ100", "f1"), ("XYZ100", "f2")] (fun _ => [])).2.2.1 "XYZ100" "f2"
      (by decide) (by decide),
   (exam_code_search_once_fanout
      (fun c => if c = "XYZ100" then
        [⟨"Paper one", none, []⟩, ⟨"Paper two", none, []⟩] else [])
      [("XYZ100", "f1"), ("XYZ100", "f2")] (fun _ => [])).2.2.2 "XYZ100" "f2"
      ⟨"Paper one", none, []⟩ (by decide) (by decide)⟩

theorem downloadLoopGo_count_zero (fetchOk : Nat → Bool) (lname : String) :
    ∀ (links existing run : List String) (idx : Nat),
      lname ∈ existing ∨ lname ∈ run →
      countFetches (downloadLoopGo fetchOk links existing run idx) lname = 0 ∧
      countWrites (downloadLoopGo fetchOk links existing run idx) lname = 0 := by
  intro links
  induction links with
  | nil => intro existing run idx _; simp [downloadLoopGo, countFetches, countWrites]
  | cons f rest ih =>
    intro existing run idx h
    simp only [downloadLoopGo]
    by_cases hskip : pyLower f ∈ existing ∨ pyLower f ∈ run
    · rw [if_pos hskip]
      have := ih existing run (idx + 1) h
      simp [countFetches, countWrites, List.countP_cons] at this ⊢
      exact this
    · rw [if_neg hskip]
      have hfn : ¬ (pyLower f = lname) := fun he => hskip (he ▸ h)
      cases hok : fetchOk idx with
      | true =>
        have hmem : lname ∈ existing ∨ lname ∈ run ++ [pyLower f] := by
          rcases h with h | h
          · exact Or.inl h
          · exact Or.inr (List.mem_append.mpr (Or.inl h))
        have := ih existing (run ++ [pyLower f]) (idx + 1) hmem
        simp [countFetches, countWrites, List.countP_cons, hfn] at this ⊢
        exact this
      | false =>
        have := ih existing run (idx + 1) h
        simp [countFetches, countWrites, List.countP_cons, hfn] at this ⊢
        exact this

theorem downloadLoopGo_count_le_one (fetchOk : Nat → Bool)
    (hok : ∀ i, fetchOk i = true) (lname : String) :
    ∀ (links existing run : List String) (idx : Nat),
      countFetches (downloadLoopGo fetchOk links existing run idx) lname ≤ 1 ∧
      countWrites (downloadLoopGo fetchOk links existing run idx) lname ≤ 1 := by
  intro links
  induction links with
  | nil => intro existing run idx; simp [downloadLoopGo, countFetches, countWrites]
  | cons f rest ih =>
    intro existing run idx
    simp only [downloadLoopGo]
    by_cases hskip : pyLower f ∈ existing ∨ pyLower f ∈ run
    · rw [if_pos hskip]
      have := ih existing run (idx + 1)
      simp [countFetches, countWrites, List.countP_cons] at this ⊢
      exact this
    · rw [if_neg hskip, hok idx]
      by_cases hfn : pyLower f = lname
      · subst hfn
        have hzero := downloadLoopGo_count_zero fetchOk (pyLower f) rest existing
          (run ++ [pyLower f]) (idx + 1)
          (Or.inr (List.mem_append.mpr (Or.inr (by simp))))
        simp only [countFetches, countWrites, List.countP_cons] at hzero ⊢
        simp [hzero.1, hzero.2]
      · have := ih existing (run ++ [pyLower f]) (idx + 1)
        simp [countFetches, countWrites, List.countP_cons, hfn] at this ⊢
        exact this

/-- C8: in the per-course download loop, filenames are deduplicated
case-insensitively against the on-disk listing and against the names already
downloaded in this run, and the check precedes the network fetch: when every
fetch succeeds, each case-folded filename causes at most one HTTP body
transfer and at most one file write, and a name already on disk from a
previous run is never fetched at all, however many resource pages re-discover
it. -/
theorem moodle_course_duplicate_skip (fetchOk : Nat → Bool)
    (dirListing download_links : List String) (hok : ∀ i, fetchOk i = true) :
    ∀ lname,
      countFetches (downloadCourseEvents fetchOk dirListing download_links) lname ≤ 1 ∧
      countWrites (downloadCourseEvents fetchOk dirListing download_links) lname ≤ 1 ∧
      (lname ∈ dirListing.map pyLower →
        countFetches (downloadCourseEvents fetchOk dirListing download_links) lname = 0 ∧
        countWrites (downloadCourseEvents fetchOk dirListing download_links) lname = 0) := by
  intro lname
  refine ⟨(downloadLoopGo_count_le_one fetchOk hok lname _ _ _ _).1,
    (downloadLoopGo_count_le_one fetchOk hok lname _ _ _ _).2, ?_⟩
  intro hmem
  exact downloadLoopGo_count_zero fetchOk lname download_links _ [] 0 (Or.inl hmem)

/-- Witness for `moodle_course_duplicate_skip`: the same file discovered
twice under different letter cases (spec scenario S5) transfers at most one
body and writes at most one file. -/
theorem moodle_course_duplicate_skip_witness :
    countFetches (downloadCourseEvents (fun _ => true) []
      ["Lecture1.pdf", "lecture1.PDF"]) "lecture1.pdf" ≤ 1 ∧
    countWrites (downloadCourseEvents (fun _ => true) []
      ["Lecture1.pdf", "lecture1.PDF"]) "lecture1.pdf" ≤ 1 :=
  ⟨((moodle_course_duplicate_skip (fun _ => true) [] ["Lecture1.pdf", "lecture1.PDF"]
      (fun _ => rfl)) "lecture1.pdf").1,
   ((moodle_course_duplicate_skip (fun _ => true) [] ["Lecture1.pdf", "lecture1.PDF"]
      (fun _ => rfl)) "lecture1.pdf").2.1⟩

/-- C7 counterexample: for the title `"Mid-term exam"` the code keeps the
hyphen (its slug regex `[^\w\s-]` preserves `-`), producing
`COMP7103_Mid-term_exam.pdf`, while the claimed form (non-word characters
removed) would be `COMP7103_Midterm_exam.pdf`. -/
theorem exam_filename_form_cex :
    examFilename "COMP7103" "Mid-term exam" none [] = "COMP7103_Mid-term_exam.pdf" ∧
    examFilenameSpec "COMP7103" "Mid-term exam" none [] = "COMP7103_Midterm_exam.pdf" ∧
    examFilename "COMP7103" "Mid-term exam" none []
      ≠ examFilenameSpec "COMP7103" "Mid-term exam" none [] := by
  decide



theorem stringLengthZero (s : String) : s.length = 0 → s = "" := by
  intro h
  apply String.ext
  have : s.data.length = 0 := h
  exact List.length_eq_zero.mp this

theorem dropLeadingSpace_length (l : List Char) :
    (dropLeadingSpace l).length ≤ l.length := by
  induction l with
  | nil => simp [dropLeadingSpace]
  | cons c cs ih =>
    simp only [dropLeadingSpace]
    split
    · exact Nat.le_trans ih (by simp)
    · simp

theorem pyStrip_length (s : String) : (pyStrip s).length ≤ s.length := by
  show (pyStripL s.data).length ≤ s.data.length
  unfold pyStripL
  calc (dropLeadingSpace (dropLeadingSpace s.data.reverse).reverse).length
      ≤ (dropLeadingSpace s.data.reverse).reverse.length := dropLeadingSpace_length _
    _ = (dropLeadingSpace s.data.reverse).length := by simp
    _ ≤ s.data.reverse.length := dropLeadingSpace_length _
    _ = s.data.length := by simp

theorem pyJoinL_append_single (sep : List Char) (ps : List (List Char))
    (p : List Char) (h : ps ≠ []) :
    pyJoinL sep (ps ++ [p]) = pyJoinL sep ps ++ sep ++ p := by
  induction ps with
  | nil => exact absurd rfl h
  | cons q qs ih =>
    cases qs with
    | nil => simp [pyJoinL]
    | cons r rs =>
      have hne : r :: rs ≠ [] := by simp
      simp only [List.cons_append, pyJoinL]
      show q ++ sep ++ pyJoinL sep ((r :: rs) ++ [p]) = _
      rw [ih hne]
      simp [List.append_assoc]

theorem joinSpace_singleton (x : String) : joinSpace [x] = x := rfl

theorem joinSpace_append_single_length (l : List String) (x : String) (h : l ≠ []) :
    (joinSpace (l ++ [x])).length = (joinSpace l).length + 1 + x.length := by
  show (pyJoinL [' '] ((l ++ [x]).map String.data)).length
      = (pyJoinL [' '] (l.map String.data)).length + 1 + x.data.length
  rw [List.map_append]
  simp only [List.map_cons, List.map_nil]
  rw [pyJoinL_append_single [' '] (l.map String.data) x.data (by simpa using h)]
  simp [List.length_append]
  omega

theorem joinSpace_ne_nil_length (l : List String)
    (h : (joinSpace l).length ≠ 0) : l ≠ [] := by
  intro hl
  subst hl
  exact h rfl
theorem hardSplitGo_bound (M o fl : Nat) (frag : String) :
    ∀ (fuel start : Nat), ∀ c ∈ hardSplitGo M o fl frag fuel start, c.length ≤ M := by
  intro fuel
  induction fuel with
  | zero => intro start c hc; simp [hardSplitGo] at hc
  | succ fuel ih =>
    intro start c hc
    simp only [hardSplitGo] at hc
    by_cases hlt : start < fl
    · rw [if_pos hlt] at hc
      rcases List.mem_append.mp hc with hc | hc
      · have hpc : c = pyStrip (pySlice frag start (min (start + M) fl)) := by
          by_cases hne : pyStrip (pySlice frag start (min (start + M) fl)) ≠ ""
          · rw [if_pos hne] at hc; simpa using hc
          · rw [if_neg hne] at hc; simp at hc
        subst hpc
        calc (pyStrip (pySlice frag start (min (start + M) fl))).length
            ≤ (pySlice frag start (min (start + M) fl)).length := pyStrip_length _
          _ ≤ M := by
              show ((frag.data.drop start).take (min (start + M) fl - start)).length ≤ M
              rw [List.length_take]
              omega
      · exact ih _ c hc
    · rw [if_neg hlt] at hc
      simp at hc
theorem packStep_inv (target M minl : Nat) (st : PackState) (frag : String)
    (hfl : frag.length ≤ M) (hfe : frag ≠ "")
    (h1 : ∀ c ∈ st.chunks, c.length ≤ M)
    (h2 : st.buf_len = (joinSpace st.buf).length)
    (h3 : st.buf_len ≤ M)
    (h4 : st.buf_len = 0 → st.buf = []) :
    (∀ c ∈ (packStep target M minl 0 st frag).chunks, c.length ≤ M) ∧
    ((packStep target M minl 0 st frag).buf_len
      = (joinSpace (packStep target M minl 0 st frag).buf).length) ∧
    ((packStep target M minl 0 st frag).buf_len ≤ M) ∧
    ((packStep target M minl 0 st frag).buf_len = 0 →
      (packStep target M minl 0 st frag).buf = []) := by
  have hfrag0 : frag.length ≠ 0 := fun h => hfe (stringLengthZero frag h)
  simp only [packStep, lt_self_iff_false, if_false, gt_iff_lt, false_and, ite_false,
    ne_eq, not_true_eq_false, not_false_eq_true]
  have hbufne : ¬ st.buf_len = 0 → st.buf ≠ [] := by
    intro hne hnil
    exact hne (by rw [h2, hnil]; rfl)
  have hemit : (pyStrip (joinSpace st.buf)).length ≤ M :=
    Nat.le_trans (Nat.le_trans (pyStrip_length _) (Nat.le_of_eq h2.symm)) h3
  split_ifs with hA hB hC hD hE hF
  all_goals dsimp only
  · -- first fragment into an empty buffer
    refine ⟨h1, ?_, hfl, fun h => absurd h hfrag0⟩
    rw [h4 hA]
    rfl
  · -- appended fragment reaches the target: emit
    have hjoin : (joinSpace (st.buf ++ [frag])).length
        = st.buf_len + 1 + frag.length := by
      rw [joinSpace_append_single_length _ _ (hbufne hA), h2]
    refine ⟨?_, rfl, Nat.zero_le M, fun _ => rfl⟩
    intro c hc
    rcases List.mem_append.mp hc with hc | hc
    · exact h1 c hc
    · have hcc : c = pyStrip (joinSpace (st.buf ++ [frag])) := by simpa using hc
      subst hcc
      calc (pyStrip (joinSpace (st.buf ++ [frag]))).length
          ≤ (joinSpace (st.buf ++ [frag])).length := pyStrip_length _
        _ ≤ M := by omega
  · -- appended fragment below target: keep buffering
    have hjoin : (joinSpace (st.buf ++ [frag])).length
        = st.buf_len + 1 + frag.length := by
      rw [joinSpace_append_single_length _ _ (hbufne hA), h2]
    exact ⟨h1, hjoin.symm, hB, fun h => by omega⟩
  · -- overflow with a big enough buffer, oversized fragment: hard split
    refine ⟨?_, rfl, Nat.zero_le M, fun _ => rfl⟩
    intro c hc
    rcases List.mem_append.mp hc with hc | hc
    · rcases List.mem_append.mp hc with hc | hc
      · exact h1 c hc
      · have hcc : c = pyStrip (joinSpace st.buf) := by simpa using hc
        subst hcc
        exact hemit
    · exact hardSplitGo_bound M 0 frag.length frag _ _ c hc
  · -- overflow with a big enough buffer, normal fragment: emit and reseed
    refine ⟨?_, rfl, hfl, fun h => absurd h hfrag0⟩
    intro c hc
    rcases List.mem_append.mp hc with hc | hc
    · exact h1 c hc
    · have hcc : c = pyStrip (joinSpace st.buf) := by simpa using hc
      subst hcc
      exact hemit
  · -- forced early split with an empty buffer: impossible when buf_len ≠ 0
    exact absurd hF (hbufne hA)
  · -- forced early split, nonempty buffer
    refine ⟨?_, rfl, hfl, fun h => absurd h hfrag0⟩
    intro c hc
    rcases List.mem_append.mp hc with hc | hc
    · exact h1 c hc
    · have hcc : c = pyStrip (joinSpace st.buf) := by simpa using hc
      subst hcc
      exact hemit
theorem packFinish_bound (M minl : Nat) (st : PackState)
    (h1 : ∀ c ∈ st.chunks, c.length ≤ M)
    (h2 : st.buf_len = (joinSpace st.buf).length)
    (h3 : st.buf_len ≤ M) :
    ∀ c ∈ packFinish M minl st, c.length ≤ M := by
  intro c hc
  by_cases hb : st.buf_len > 0
  · by_cases hm : st.chunks ≠ [] ∧ st.buf_len < minl ∧
        (st.chunks.getLastD "").length + 1 + st.buf_len ≤ M
    · simp only [packFinish, if_pos hb, if_pos hm] at hc
      rcases List.mem_append.mp (List.mem_filter.mp hc).1 with hcm | hcm
      · exact h1 c (List.dropLast_subset _ hcm)
      · have hcc : c = pyStrip ((st.chunks.getLastD "") ++ " " ++ joinSpace st.buf) := by
          simpa using hcm
        subst hcc
        calc (pyStrip ((st.chunks.getLastD "") ++ " " ++ joinSpace st.buf)).length
            ≤ ((st.chunks.getLastD "") ++ " " ++ joinSpace st.buf).length :=
              pyStrip_length _
          _ = (st.chunks.getLastD "").length + 1 + (joinSpace st.buf).length := by
              simp only [String.length_append]
              rfl
          _ ≤ M := by omega
    · simp only [packFinish, if_pos hb, if_neg hm] at hc
      rcases List.mem_append.mp (List.mem_filter.mp hc).1 with hcm | hcm
      · exact h1 c hcm
      · have hcc : c = pyStrip (joinSpace st.buf) := by simpa using hcm
        subst hcc
        exact Nat.le_trans (Nat.le_trans (pyStrip_length _) (Nat.le_of_eq h2.symm)) h3
  · simp only [packFinish, if_neg hb] at hc
    exact h1 c (List.mem_filter.mp hc).1

theorem packFold_inv (target M minl : Nat) :
    ∀ (frags : List String) (st : PackState),
      (∀ f ∈ frags, f.length ≤ M ∧ f ≠ "") →
      (∀ c ∈ st.chunks, c.length ≤ M) →
      st.buf_len = (joinSpace st.buf).length →
      st.buf_len ≤ M →
      (st.buf_len = 0 → st.buf = []) →
      (∀ c ∈ (frags.foldl (packStep target M minl 0) st).chunks, c.length ≤ M) ∧
      ((frags.foldl (packStep target M minl 0) st).buf_len
        = (joinSpace (frags.foldl (packStep target M minl 0) st).buf).length) ∧
      ((frags.foldl (packStep target M minl 0) st).buf_len ≤ M) := by
  intro frags
  induction frags with
  | nil => intro st hf h1 h2 h3 h4; exact ⟨h1, h2, h3⟩
  | cons f fr ih =>
    intro st hf h1 h2 h3 h4
    simp only [List.foldl_cons]
    obtain ⟨g1, g2, g3, g4⟩ := packStep_inv target M minl st f
      (hf f (by simp)).1 (hf f (by simp)).2 h1 h2 h3 h4
    exact ih _ (fun x hx => hf x (by simp [hx])) g1 g2 g3 g4

theorem pack_bound (cfg : ChunkerConfig) (frags : List String)
    (hov : cfg.overlap_tokens = 0)
    (hf : ∀ f ∈ frags, f.length ≤ maxChars cfg ∧ f ≠ "") :
    ∀ c ∈ pack cfg frags, c.length ≤ maxChars cfg := by
  have hoc : overlapChars cfg = 0 := by simp [overlapChars, tokensToChars, hov]
  unfold pack
  rw [hoc]
  obtain ⟨g1, g2, g3⟩ := packFold_inv (targetChars cfg) (maxChars cfg) (minChars cfg)
    frags ⟨[], [], 0⟩ hf (by simp) rfl (Nat.zero_le _) (fun _ => rfl)
  exact packFinish_bound (maxChars cfg) (minChars cfg) _ g1 g2 g3
/-- C5 (amended): when `overlap_tokens = 0` and every fragment the chunker
feeds to `_pack` is nonempty and at most `max_tokens × ratio` characters long
(as the sentence splitter produces for ordinary prose), every chunk
`RecursiveDocumentChunker.chunk` emits has length at most
`max_tokens × ratio`.  Without those side conditions the bound fails (see the
counterexample), and chunks shorter than `min_tokens × ratio` can occur not
only as one final chunk per document but also at block boundaries and forced
early splits. -/
theorem chunk_upper_bound_amended (cfg : ChunkerConfig) (text : String)
    (hov : cfg.overlap_tokens = 0)
    (hfrag : ∀ s ∈ chunkFragments text, s.length ≤ maxChars cfg ∧ s ≠ "") :
    ∀ c ∈ chunkFn cfg text, c.length ≤ maxChars cfg := by
  intro c hc
  unfold chunkFn at hc
  obtain ⟨kb, hkb, hcp⟩ := List.mem_flatMap.mp hc
  refine pack_bound cfg (blockSentences kb.2) hov ?_ c hcp
  intro s hs
  exact hfrag s (List.mem_flatMap.mpr ⟨kb, hkb, hs⟩)

/-- Witness for `chunk_upper_bound_amended` on a concrete two-sentence
document under the configuration `(2, 3, 1, 0, 4)`: the single emitted chunk
`"Hi. Bye."` respects the 12-character bound. -/
theorem chunk_upper_bound_amended_witness :
    ("Hi. Bye." : String).length ≤ maxChars ⟨2, 3, 1, 0, 4⟩ :=
  chunk_upper_bound_amended ⟨2, 3, 1, 0, 4⟩ "Hi. Bye." rfl (by decide)
    "Hi. Bye." (by decide)

theorem moodle_fold_getElem (courses : List Course) (t : Int) :
    ∀ (names : List String) (db : List Course) (i : Nat),
      (names.foldl (fun db name =>
        match nameToId courses name with
        | some cid => setMoodleTime db cid t
        | none => db) db)[i]? =
      (db[i]?).map (fun c =>
        if names.any (fun n => nameToId courses n == some c.id)
        then { c with moodle_time := some t } else c) := by
  intro names
  induction names with
  | nil =>
    intro db i
    simp only [List.foldl_nil, List.any_nil, Bool.false_eq_true, if_false]
    cases db[i]? <;> rfl
  | cons n ns ih =>
    intro db i
    simp only [List.foldl_cons]
    cases hn : nameToId courses n with
    | none =>
      rw [ih]
      cases hdb : db[i]? with
      | none => rfl
      | some c =>
        simp only [Option.map_some', List.any_cons, hn]
        rw [show ((none : Option Int) == some c.id) = false from rfl, Bool.false_or]
    | some cid =>
      rw [ih]
      simp only [setMoodleTime, List.getElem?_map]
      cases hdb : db[i]? with
      | none => rfl
      | some c =>
        simp only [Option.map_some', List.any_cons, hn]
        by_cases hid : c.id = cid
        · subst hid
          rw [if_pos rfl, show (some c.id == some c.id) = true from by simp,
            Bool.true_or, if_pos rfl]
          by_cases hany : ns.any (fun n => nameToId courses n == some c.id) = true
          · simp [hany]
          · rw [Bool.eq_false_iff.mpr hany]
            simp
        · rw [if_neg hid,
            show (some cid == some c.id) = false from by
              simpa using fun h => hid h.symm,
            Bool.false_or]
theorem exambase_fold_getElem (courses : List Course) (t : Int) :
    ∀ (names : List String) (db : List Course) (i : Nat),
      (names.foldl (fun db name =>
        match nameToId courses name with
        | some cid => setExambaseTime db cid t
        | none => db) db)[i]? =
      (db[i]?).map (fun c =>
        if names.any (fun n => nameToId courses n == some c.id)
        then { c with exambase_time := some t } else c) := by
  intro names
  induction names with
  | nil =>
    intro db i
    simp only [List.foldl_nil, List.any_nil, Bool.false_eq_true, if_false]
    cases db[i]? <;> rfl
  | cons n ns ih =>
    intro db i
    simp only [List.foldl_cons]
    cases hn : nameToId courses n with
    | none =>
      rw [ih]
      cases hdb : db[i]? with
      | none => rfl
      | some c =>
        simp only [Option.map_some', List.any_cons, hn]
        rw [show ((none : Option Int) == some c.id) = false from rfl, Bool.false_or]
    | some cid =>
      rw [ih]
      simp only [setExambaseTime, List.getElem?_map]
      cases hdb : db[i]? with
      | none => rfl
      | some c =>
        simp only [Option.map_some', List.any_cons, hn]
        by_cases hid : c.id = cid
        · subst hid
          rw [if_pos rfl, show (some c.id == some c.id) = true from by simp,
            Bool.true_or, if_pos rfl]
          by_cases hany : ns.any (fun n => nameToId courses n == some c.id) = true
          · simp [hany]
          · rw [Bool.eq_false_iff.mpr hany]
            simp
        · rw [if_neg hid,
            show (some cid == some c.id) = false from by
              simpa using fun h => hid h.symm,
            Bool.false_or]

theorem updateTimestamps_getElem (courses : List Course) (ml el : List String)
    (t : Int) (db : List Course) (i : Nat) :
    (updateTimestamps courses ml el t db)[i]? =
    (db[i]?).map (fun c =>
      { c with
        moodle_time := if ml.any (fun n => nameToId courses n == some c.id)
          then some t else c.moodle_time,
        exambase_time := if el.any (fun n => nameToId courses n == some c.id)
          then some t else c.exambase_time }) := by
  unfold updateTimestamps
  rw [exambase_fold_getElem, moodle_fold_getElem]
  cases hdb : db[i]? with
  | none => rfl
  | some c =>
    simp only [Option.map_some']
    by_cases h1 : ml.any (fun n => nameToId courses n == some c.id) = true
    · by_cases h2 : el.any (fun n => nameToId courses n == some c.id) = true
      · simp [h1, h2]
      · simp [h1, Bool.eq_false_iff.mpr h2]
    · by_cases h2 : el.any (fun n => nameToId courses n == some c.id) = true
      · simp [Bool.eq_false_iff.mpr h1, h2]
      · simp [Bool.eq_false_iff.mpr h1, Bool.eq_false_iff.mpr h2]
/-- C2 (amended): first conjunct — `_update_timestamps` sets, for every row
of the course table, the Moodle timestamp to its (fresh) clock argument
exactly when some name on the Moodle due-list maps to that row's id through
the name→id dict, and likewise for Exambase; rows not named keep their
timestamps.  Second conjunct — `update_knowledge_base` gates this on the
*run-level* `stats["success"]` only: when the flag is false (which happens
only when the scrape orchestration itself raised) no timestamp moves, and on
any non-interrupted run with a nonempty due-set the flag is true — however
the sources fared — and the timestamps of every due-list course of *both*
sources are advanced to the fresh reading `now2`, not to the captured
`now1`. -/
theorem update_timestamp_advancement_amended :
    (∀ (courses : List Course) (ml el : List String) (t : Int) (db : List Course)
        (i : Nat),
      (updateTimestamps courses ml el t db)[i]? =
      (db[i]?).map (fun c =>
        { c with
          moodle_time := if ml.any (fun n => nameToId courses n == some c.id)
            then some t else c.moodle_time,
          exambase_time := if el.any (fun n => nameToId courses n == some c.id)
            then some t else c.exambase_time })) ∧
    (∀ (now1 now2 : Int) (db : List Course) (menv : MoodleEnv)
        (eenv : ExambaseEnv) (intr : Bool),
      ((updateKnowledgeBase now1 now2 db menv eenv intr).stats.success = false →
        (updateKnowledgeBase now1 now2 db menv eenv intr).db = db) ∧
      (db ≠ [] →
        ¬((getCoursesNeedUpdate now1 db).1 = [] ∧ (getCoursesNeedUpdate now1 db).2 = []) →
        intr = false →
        (updateKnowledgeBase now1 now2 db menv eenv intr).stats.success = true ∧
        (updateKnowledgeBase now1 now2 db menv eenv intr).db
          = updateTimestamps db ((getCoursesNeedUpdate now1 db).1)
              ((getCoursesNeedUpdate now1 db).2) now2 db)) := by
  refine ⟨updateTimestamps_getElem, ?_⟩
  intro now1 now2 db menv eenv intr
  by_cases hdb0 : db = []
  · subst hdb0
    constructor
    · intro _
      rfl
    · intro h
      exact absurd rfl h
  · rcases hdue : getCoursesNeedUpdate now1 db with ⟨ml, el⟩
    by_cases hboth : ml = [] ∧ el = []
    · constructor
      · intro h
        simp only [updateKnowledgeBase, if_neg hdb0, hdue, if_pos hboth] at h
        exact Bool.noConfusion h
      · intro _ h2
        exact absurd hboth (by simpa using h2)
    · cases intr with
      | true =>
        constructor
        · intro _
          simp only [updateKnowledgeBase, if_neg hdb0, hdue, if_neg hboth]
          rfl
        · intro _ _ hintr
          exact absurd hintr (by decide)
      | false =>
        constructor
        · intro h
          simp only [updateKnowledgeBase, if_neg hdb0, hdue, if_neg hboth] at h
          exact Bool.noConfusion h
        · intro _ _ _
          constructor
          · simp only [updateKnowledgeBase, if_neg hdb0, hdue, if_neg hboth]
            rfl
          · simp only [updateKnowledgeBase, if_neg hdb0, hdue, if_neg hboth]
            rfl

/-- Witness for `update_timestamp_advancement_amended` at the concrete run
of the C2 counterexample: the Moodle source fails fatally, yet the run-level
flag is true and the due course's timestamps are rewritten. -/
theorem update_timestamp_advancement_amended_witness :
    (updateKnowledgeBase 1000000 1000500
        [⟨1, "COMP7103 Data mining", some 0, some 999000⟩] .err (.ok 0 0 0)
        false).stats.success = true ∧
    (updateKnowledgeBase 1000000 1000500
        [⟨1, "COMP7103 Data mining", some 0, some 999000⟩] .err (.ok 0 0 0)
        false).db
      = updateTimestamps [⟨1, "COMP7103 Data mining", some 0, some 999000⟩]
          ((getCoursesNeedUpdate 1000000 [⟨1, "COMP7103 Data mining", some 0, some 999000⟩]).1)
          ((getCoursesNeedUpdate 1000000 [⟨1, "COMP7103 Data mining", some 0, some 999000⟩]).2)
          1000500 [⟨1, "COMP7103 Data mining", some 0, some 999000⟩] :=
  (update_timestamp_advancement_amended.2 1000000 1000500
      [⟨1, "COMP7103 Data mining", some 0, some 999000⟩] .err (.ok 0 0 0) false).2
    (by decide) (by decide) rfl

theorem getD_set_self (l : List Nat) (t v : Nat) (h : t < l.length) :
    (l.set t v).getD t 0 = v := by
  simp [List.getD, List.getElem?_set, h]

theorem getD_set_other (l : List Nat) (t u v : Nat) (h : u ≠ t) :
    (l.set t v).getD u 0 = l.getD u 0 := by
  simp only [List.getD, List.get?_eq_getElem?, List.getElem?_set]
  rw [if_neg (fun he => h he.symm)]

theorem getD_replicate_prog (n t : Nat) (a : List Act) :
    (List.replicate n a).getD t [] = if t < n then a else [] := by
  simp [List.getD, List.getElem?_replicate]
  split <;> rfl

theorem stepFn_guarded_inv (n : Nat) (s s2 : SysState) (t : Nat)
    (hlen : s.pcs.length = n)
    (hinv : ∀ u, 1 ≤ s.pcs.getD u 0 → s.pcs.getD u 0 ≤ 3 → s.lock = some u)
    (hstep : stepFn (List.replicate n guardedLoginProg) s t = some s2) :
    s2.pcs.length = n ∧
      ∀ u, 1 ≤ s2.pcs.getD u 0 → s2.pcs.getD u 0 ≤ 3 → s2.lock = some u := by
  unfold stepFn at hstep
  rw [getD_replicate_prog] at hstep
  by_cases htn : t < n
  · rw [if_pos htn] at hstep
    have htlen : t < s.pcs.length := by omega
    rcases hpc : s.pcs.getD t 0 with _ | _ | _ | _ | pc4 <;> rw [hpc] at hstep
    · -- pc = 0 : acquire
      simp only [guardedLoginProg, List.get?] at hstep
      by_cases hl : s.lock = none
      · rw [if_pos hl] at hstep
        obtain rfl : (⟨some t, s.pcs.set t 1⟩ : SysState) = s2 := by
          simpa using hstep
        refine ⟨by simpa using hlen, ?_⟩
        intro u h1 h3
        by_cases hut : u = t
        · simp [hut]
        · rw [getD_set_other _ _ _ _ hut] at h1 h3
          exact absurd (hinv u h1 h3) (by simp [hl])
      · rw [if_neg hl] at hstep; cases hstep
    · -- pc = 1 : lstart
      simp only [guardedLoginProg, List.get?] at hstep
      obtain rfl : (⟨s.lock, s.pcs.set t 2⟩ : SysState) = s2 := by simpa using hstep
      have hlock : s.lock = some t := hinv t (by omega) (by omega)
      refine ⟨by simpa using hlen, ?_⟩
      intro u h1 h3
      by_cases hut : u = t
      · simp [hut, hlock]
      · rw [getD_set_other _ _ _ _ hut] at h1 h3
        exact hinv u h1 h3
    · -- pc = 2 : lend
      simp only [guardedLoginProg, List.get?] at hstep
      obtain rfl : (⟨s.lock, s.pcs.set t 3⟩ : SysState) = s2 := by simpa using hstep
      have hlock : s.lock = some t := hinv t (by omega) (by omega)
      refine ⟨by simpa using hlen, ?_⟩
      intro u h1 h3
      by_cases hut : u = t
      · simp [hut, hlock]
      · rw [getD_set_other _ _ _ _ hut] at h1 h3
        exact hinv u h1 h3
    · -- pc = 3 : release
      simp only [guardedLoginProg, List.get?] at hstep
      by_cases hl : s.lock = some t
      · rw [if_pos hl] at hstep
        obtain rfl : (⟨none, s.pcs.set t 4⟩ : SysState) = s2 := by simpa using hstep
        refine ⟨by simpa using hlen, ?_⟩
        intro u h1 h3
        by_cases hut : u = t
        · subst hut
          rw [getD_set_self _ _ _ htlen] at h1 h3
          omega
        · rw [getD_set_other _ _ _ _ hut] at h1 h3
          have := hinv u h1 h3
          rw [hl] at this
          exact absurd (Option.some.inj this).symm hut
      · rw [if_neg hl] at hstep; cases hstep
    · -- pc ≥ 4 : no action
      simp only [guardedLoginProg, List.get?] at hstep
      cases hstep
  · rw [if_neg htn] at hstep
    simp only [List.get?] at hstep
    cases hstep

theorem runSched_guarded_inv (n : Nat) :
    ∀ (sched : List Nat) (s s2 : SysState),
      s.pcs.length = n →
      (∀ u, 1 ≤ s.pcs.getD u 0 → s.pcs.getD u 0 ≤ 3 → s.lock = some u) →
      runSched (List.replicate n guardedLoginProg) s sched = some s2 →
      s2.pcs.length = n ∧
        ∀ u, 1 ≤ s2.pcs.getD u 0 → s2.pcs.getD u 0 ≤ 3 → s2.lock = some u := by
  intro sched
  induction sched with
  | nil =>
    intro s s2 hlen hinv hrun
    obtain rfl : s = s2 := by simpa [runSched] using hrun
    exact ⟨hlen, hinv⟩
  | cons t ts ih =>
    intro s s2 hlen hinv hrun
    simp only [runSched] at hrun
    cases hstep : stepFn (List.replicate n guardedLoginProg) s t with
    | none => rw [hstep] at hrun; cases hrun
    | some smid =>
      rw [hstep] at hrun
      obtain ⟨hlen2, hinv2⟩ := stepFn_guarded_inv n s smid t hlen hinv hstep
      exact ih smid s2 hlen2 hinv2 hrun

theorem inLogin_guarded (n t : Nat) (s : SysState)
    (ht : inLogin (List.replicate n guardedLoginProg) s t = true) :
    t < n ∧ s.pcs.getD t 0 = 2 := by
  unfold inLogin at ht
  rw [getD_replicate_prog] at ht
  by_cases htn : t < n
  · rw [if_pos htn] at ht
    refine ⟨htn, ?_⟩
    by_contra hne
    rcases hpc : s.pcs.getD t 0 with _ | _ | _ | _ | pc4
    all_goals rw [hpc] at ht
    · exact absurd ht (by decide)
    · exact absurd ht (by decide)
    · exact hne hpc
    · exact absurd ht (by decide)
    · rw [List.take_of_length_le
        (by simp only [guardedLoginProg, List.length_cons, List.length_nil]; omega)] at ht
      exact absurd ht (by decide)
  · rw [if_neg htn] at ht
    simp [List.count] at ht

theorem countP_le_one_unique (l : List Nat) (p : Nat → Bool) (hnd : l.Nodup)
    (hu : ∀ a b, p a = true → p b = true → a = b) : l.countP p ≤ 1 := by
  induction l with
  | nil => simp
  | cons a l ih =>
    rw [List.countP_cons]
    by_cases hpa : p a = true
    · have hzero : l.countP p = 0 := by
        rw [List.countP_eq_zero]
        intro b hb hpb
        exact absurd hb ((hu b a hpb hpa) ▸ (List.nodup_cons.mp hnd).1)
      simp [hpa, hzero]
    · have := ih (List.nodup_cons.mp hnd).2
      simp [hpa]
      omega

/-- C6 (amended): every login performed through
`_create_authenticated_driver` — the workers of `ParallelMoodleDownloader`
and `ParallelExambaseDownloader`, which share the single module-level
`_login_lock` — is serialized: in every reachable state of any schedule over
any number of such workers, at most one is inside its login step.  (The
sequential-path logins of `_scrape_moodle` / `_scrape_exambase` and the
course-list pre-login of `_scrape_moodle_parallel` are *not* guarded, which
is what the counterexample exhibits.) -/
theorem guarded_logins_serialized (n : Nat) (sched : List Nat) (s : SysState)
    (hrun : runSched (List.replicate n guardedLoginProg)
        (initState (List.replicate n guardedLoginProg)) sched = some s) :
    loginsInFlight (List.replicate n guardedLoginProg) s ≤ 1 := by
  have hlen0 : (initState (List.replicate n guardedLoginProg)).pcs.length = n := by
    simp [initState]
  have hinv0 : ∀ u, 1 ≤ (initState (List.replicate n guardedLoginProg)).pcs.getD u 0 →
      (initState (List.replicate n guardedLoginProg)).pcs.getD u 0 ≤ 3 →
      (initState (List.replicate n guardedLoginProg)).lock = some u := by
    intro u h1 _
    exfalso
    simp only [initState, List.length_replicate] at h1
    have : (List.replicate n (0 : Nat)).getD u 0 = 0 := by
      simp [List.getD, List.getElem?_replicate]
      split <;> rfl
    omega
  obtain ⟨hlen, hinv⟩ := runSched_guarded_inv n sched _ s hlen0 hinv0 hrun
  unfold loginsInFlight
  rw [List.length_replicate]
  apply countP_le_one_unique
  · exact List.nodup_range n
  · intro a b ha hb
    obtain ⟨han, hpa⟩ := inLogin_guarded n a s ha
    obtain ⟨hbn, hpb⟩ := inLogin_guarded n b s hb
    have hla : s.lock = some a := hinv a (by omega) (by omega)
    have hlb : s.lock = some b := hinv b (by omega) (by omega)
    exact Option.some.inj (hla ▸ hlb)

/-- Witness for `guarded_logins_serialized`: two guarded workers, a schedule
in which worker 0 acquires the lock and starts its login. -/
theorem guarded_logins_serialized_witness :
    loginsInFlight (List.replicate 2 guardedLoginProg) ⟨some 0, [2, 0]⟩ ≤ 1 :=
  guarded_logins_serialized 2 [0, 0] ⟨some 0, [2, 0]⟩ (by decide)

end KengU
